import Mathlib

/-!
Verification of the CSV parser component of clickhouse_sinker
(`parser/csv.go`: `CsvParser.Parse` and the `CsvMetric` typed getters).

The Go source under verification is embedded shallowly below.  Machine
numeric types are modelled as follows: `int64` as `ℤ` (the claims under
study never approach the overflow boundary), `float64` as `ℚ` (exact
decimal arithmetic; IEEE rounding is outside the scope of the claims),
`time.Time` as `ℚ` seconds since the Unix epoch, and Go `interface{}`
results as the closed tagged union `GoValue`.

External collaborators that are not part of the source tree
(`fastfloat`, `strconv`, `encoding/csv`, `gjson`, the `model` type
constants and the `Pool` time helpers) are modelled from the
specification; each such definition carries a doc comment beginning
`Modelled from the spec:`.
-/

namespace CSink

/-- Longest leading run of decimal digits of a character list. -/
def leadingDigits (l : List Char) : List Char := l.takeWhile Char.isDigit

/-- Numeric value of a list of decimal digits (most significant first). -/
def digitsVal (ds : List Char) : ℕ := ds.foldl (fun a c => a * 10 + (c.toNat - 48)) 0

/-- Split an optional leading sign off a numeric literal: (negative?,
rest). -/
def signSplit (l : List Char) : Bool × List Char :=
  match l with
  | [] => (false, [])
  | c :: r => if c = '-' then (true, r) else if c = '+' then (false, r) else (false, c :: r)

/-- Exponent clause of a floating-point literal: after the `e`/`E`, an optional
sign and a nonempty digit run.  Returns (negative?, digits, rest); `none` when
no digits follow, in which case the exponent marker is not consumed. -/
def expoPart (l : List Char) : Option (Bool × List Char × List Char) :=
  let p := signSplit l
  let es := leadingDigits p.2
  if es.isEmpty then none else some (p.1, es, p.2.drop es.length)

/-- Apply an optional exponent suffix to a mantissa, consuming it from the
input only when it is well formed. -/
def applyExpo (mant : ℚ) (l : List Char) : ℚ × List Char :=
  match l with
  | c :: r =>
    if c = 'e' ∨ c = 'E' then
      match expoPart r with
      | some (negE, es, rest) =>
        if negE then (mant / (10 : ℚ) ^ digitsVal es, rest)
        else (mant * (10 : ℚ) ^ digitsVal es, rest)
      | none => (mant, l)
    else (mant, l)
  | [] => (mant, [])

/-- Optional fraction clause then optional exponent clause of a
floating-point literal whose integer part has already been read. -/
def fracExpo (intPart : ℚ) (l2 : List Char) : ℚ × List Char :=
  match l2 with
  | '.' :: r =>
    applyExpo (intPart + (digitsVal (leadingDigits r) : ℚ) / (10 : ℚ) ^ (leadingDigits r).length)
      (r.drop (leadingDigits r).length)
  | _ => applyExpo intPart l2

/-- Longest valid leading floating-point prefix of a character list:
optional sign, then either a digit run with an optional fraction, or a
bare fraction, then an optional exponent.  Returns the exact rational
value of the prefix and the unconsumed rest; `none` when no valid
prefix exists. -/
def parseFloatLead (l : List Char) : Option (ℚ × List Char) :=
  let sg := signSplit l
  let ds := leadingDigits sg.2
  if ds.isEmpty then
    match sg.2 with
    | '.' :: r =>
      if (leadingDigits r).isEmpty then none
      else
        let vr := applyExpo ((digitsVal (leadingDigits r) : ℚ) / (10 : ℚ) ^ (leadingDigits r).length)
          (r.drop (leadingDigits r).length)
        some (if sg.1 then -vr.1 else vr.1, vr.2)
    | _ => none
  else
    let vr := fracExpo (digitsVal ds : ℚ) (sg.2.drop ds.length)
    some (if sg.1 then -vr.1 else vr.1, vr.2)

namespace fastfloat

/-- Modelled from the spec: `fastfloat.ParseInt64BestEffort` (external
dependency, not under src/) — best-effort parse of the longest valid
leading integer prefix of the cell, ignoring trailing garbage, else `0`
(spec §4.2, §9).  Overflow of int64 is outside the scope of the claims
and is not modelled. -/
def ParseInt64BestEffort (s : String) : ℤ :=
  match s.toList with
  | [] => 0
  | c :: rest =>
    if c = '-' then
      let ds := leadingDigits rest
      if ds.isEmpty then 0 else -(digitsVal ds : ℤ)
    else
      let ds := leadingDigits (c :: rest)
      if ds.isEmpty then 0 else (digitsVal ds : ℤ)

/-- Modelled from the spec: `fastfloat.ParseBestEffort` (external
dependency, not under src/) — best-effort parse of the longest valid
leading floating-point prefix of the cell, ignoring trailing garbage,
else `0.0` (spec §4.2, §9).  `inf`/`nan` literals are outside the scope
of the claims and are not modelled. -/
def ParseBestEffort (s : String) : ℚ :=
  match parseFloatLead s.toList with
  | some qr => qr.1
  | none => 0

end fastfloat

namespace strconv

/-- Modelled from the spec: `strconv.ParseFloat` (Go standard library,
not under src/) — succeeds exactly when the whole cell is a bare numeric
literal (integer or float), per spec §4.3 branch 1.  Hexadecimal and
`inf`/`nan` literals are outside the scope of the claims and are not
modelled. -/
def ParseFloat (s : String) : Option ℚ :=
  match parseFloatLead s.toList with
  | some (q, []) => some q
  | _ => none

end strconv

namespace model

/-- Modelled from the spec: the element-type selector constants of the
`model` package (not under src/).  The concrete integer values are not
fixed by the spec; only their distinctness matters to the claims. -/
def Bool : Nat := 1

/-- Modelled from the spec: see `model.Bool`. -/
def Int : Nat := 2

/-- Modelled from the spec: see `model.Bool`. -/
def Float : Nat := 3

/-- Modelled from the spec: see `model.Bool`. -/
def String : Nat := 4

/-- Modelled from the spec: see `model.Bool`. -/
def DateTime : Nat := 5

end model

/-- Modelled from the spec: `parser.Epoch` (pool code, not under src/) —
the sentinel Unix-epoch instant.  Instants are rational seconds since
the Unix epoch. -/
def Epoch : ℚ := 0

/-- Modelled from the spec: `parser.UnixFloat` (pool code, not under
src/) — interprets a number as a Unix timestamp scaled by the configured
time unit; the time unit is carried as the rational scale factor to
seconds. -/
def UnixFloat (sec : ℚ) (unit : ℚ) : ℚ := sec * unit

/-- Modelled from the spec: `time.Time.Unix` — the integer count of
whole seconds since the Unix epoch, i.e. the floor of the rational
instant. -/
def timeUnix (t : ℚ) : ℤ := Int.fdiv t.num t.den

/-- Modelled from the spec: the type tag of a `gjson.Result` (external
dependency, not under src/). -/
inductive GjsonType where
  | jNull | jFalse | jNumber | jString | jTrue | jJSON
deriving DecidableEq, Repr

/-- Modelled from the spec: `gjson.Result` (external dependency, not
under src/): a decoded JSON array element with its type tag, numeric
value (`Num`), unescaped string content (`Str`) and raw source text
(`Raw`). -/
structure GjsonResult where
  typ : GjsonType
  num : ℚ
  str : String
  raw : String
deriving DecidableEq, Repr

/-- JSON whitespace. -/
def jsonWs (c : Char) : Bool := c = ' ' || c = '\t' || c = '\n' || c = '\r'

/-- Drop leading JSON whitespace. -/
def skipWs (l : List Char) : List Char := l.dropWhile jsonWs

/-- Scan the body of a JSON string (the opening quote already consumed),
unescaping the standard single-character escapes.  Returns the unescaped
content, the raw source text of the literal (quotes included) and the
rest of the input.  `acc` and `raw` are accumulated in reverse.
Unicode escapes are outside the scope of the claims and are treated as
malformed input. -/
def scanStringAux : Nat → List Char → List Char → List Char → Option (String × String × List Char)
  | 0, _, _, _ => none
  | fuel + 1, acc, raw, l =>
    match l with
    | [] => none
    | '"' :: rest => some (String.mk acc.reverse, String.mk ('"' :: raw).reverse, rest)
    | '\\' :: e :: rest =>
      let esc : Option Char :=
        if e = 'n' then some '\n' else if e = 't' then some '\t'
        else if e = 'r' then some '\r' else if e = 'b' then some (Char.ofNat 8)
        else if e = 'f' then some (Char.ofNat 12) else if e = '"' then some '"'
        else if e = '\\' then some '\\' else if e = '/' then some '/'
        else none
      match esc with
      | some c => scanStringAux fuel (c :: acc) (e :: '\\' :: raw) rest
      | none => none
    | c :: rest => scanStringAux fuel (c :: acc) (c :: raw) rest

/-- Scan a balanced bracketed JSON value (array or object), the opening
bracket already placed in `acc`; respects strings.  Returns the raw
source text and the rest of the input. -/
def scanBalanced : Nat → Nat → Bool → List Char → List Char → Option (String × List Char)
  | 0, _, _, _, _ => none
  | fuel + 1, depth, inStr, acc, l =>
    match l with
    | [] => none
    | c :: rest =>
      if inStr then
        if c = '\\' then
          match rest with
          | [] => none
          | d :: rest2 => scanBalanced fuel depth true (d :: c :: acc) rest2
        else if c = '"' then scanBalanced fuel depth false (c :: acc) rest
        else scanBalanced fuel depth true (c :: acc) rest
      else if c = '"' then scanBalanced fuel depth true (c :: acc) rest
      else if c = '[' ∨ c = Char.ofNat 123 then scanBalanced fuel (depth + 1) false (c :: acc) rest
      else if c = ']' ∨ c = Char.ofNat 125 then
        if depth = 1 then some (String.mk ((c :: acc).reverse), rest)
        else scanBalanced fuel (depth - 1) false (c :: acc) rest
      else scanBalanced fuel depth false (c :: acc) rest

/-- Characters that may occur in a JSON number literal. -/
def isNumChar (c : Char) : Bool := c.isDigit || c = '-' || c = '+' || c = '.' || c = 'e' || c = 'E'

/-- Numeric value of a scanned number literal (best effort, `0` when
unparsable), mirroring how gjson fills `Result.Num`. -/
def numValue (raw : List Char) : ℚ :=
  match parseFloatLead raw with
  | some qr => qr.1
  | none => 0

/-- Parse one JSON array element.  Returns the element and the rest of
the input; `none` on malformed input. -/
def parseElem (fuel : Nat) (l : List Char) : Option (GjsonResult × List Char) :=
  match fuel with
  | 0 => none
  | f + 1 =>
    match skipWs l with
    | [] => none
    | c :: rest =>
      if c = 'n' then
        if rest.take 3 = ['u', 'l', 'l'] then
          some (⟨.jNull, 0, "", "null"⟩, rest.drop 3)
        else none
      else if c = 't' then
        if rest.take 3 = ['r', 'u', 'e'] then
          some (⟨.jTrue, 0, "", "true"⟩, rest.drop 3)
        else none
      else if c = 'f' then
        if rest.take 4 = ['a', 'l', 's', 'e'] then
          some (⟨.jFalse, 0, "", "false"⟩, rest.drop 4)
        else none
      else if c = '"' then
        match scanStringAux f [] ['"'] rest with
        | some (s, raw, rest2) => some (⟨.jString, 0, s, raw⟩, rest2)
        | none => none
      else if c = '[' ∨ c = Char.ofNat 123 then
        match scanBalanced f 1 false [c] rest with
        | some (raw, rest2) => some (⟨.jJSON, 0, "", raw⟩, rest2)
        | none => none
      else if c.isDigit || c = '-' then
        let raw := (c :: rest).takeWhile isNumChar
        some (⟨.jNumber, numValue raw, "", String.mk raw⟩, (c :: rest).dropWhile isNumChar)
      else none

/-- Parse the elements of a JSON array, the opening bracket already
consumed. -/
def parseElems : Nat → List Char → Option (List GjsonResult)
  | 0, _ => none
  | f + 1, l =>
    match skipWs l with
    | [] => none
    | c :: rest =>
      if c = ']' then some []
      else
        match parseElem f (c :: rest) with
        | none => none
        | some (e, rest2) =>
          match skipWs rest2 with
          | ',' :: rest3 =>
            match parseElems f rest3 with
            | some es => some (e :: es)
            | none => none
          | ']' :: _ => some [e]
          | _ => none

/-- Modelled from the spec: `gjson.Parse(str).Array()` (external
dependency, not under src/) — the element list of the JSON array held in
the cell; malformed input and non-array input degrade to the empty list
(§4.4: absent/invalid cells always degrade to an empty typed array). -/
def gjsonParseArray (s : String) : List GjsonResult :=
  match skipWs s.toList with
  | '[' :: rest => (parseElems (s.length + 1) rest).getD []
  | _ => []

/-- Modelled from the spec: `gjson.Result.Int` on a `Number` element —
the numeric value truncated toward zero (the round-trip comparison in
the caller discards it unless it is exact). -/
def gjsonInt (e : GjsonResult) : ℤ :=
  if e.num < 0 then -(Int.fdiv (-e.num).num (-e.num).den) else Int.fdiv e.num.num e.num.den

/-- The closed union of values a getter can return: the Go `interface{}`
results of `csv.go`.  `nil` is the Go nil interface, the null/no-value
marker. -/
inductive GoValue where
  | nil
  | str (s : String)
  | bool (b : Bool)
  | int (i : ℤ)
  | float (q : ℚ)
  | time (t : ℚ)
  | boolArr (l : List Bool)
  | intArr (l : List ℤ)
  | floatArr (l : List ℚ)
  | strArr (l : List String)
  | timeArr (l : List ℚ)
deriving DecidableEq, Repr

/-- The configuration collaborator `Pool` (external per spec §6; its
fields are consumed read-only by `csv.go`): the column index
`csvFormat` (a Go `map[string]int`, modelled as an association list with
distinct keys so that its length is the map size), the delimiter, the
time-unit scale factor, and the per-column date-format resolver
`ParseDateTime` (modelled from the spec as an abstract resolver that
either produces an instant or fails). -/
structure Pool where
  csvFormat : List (String × Nat)
  delimiter : String
  timeUnit : ℚ
  ParseDateTime : String → String → Option ℚ

/-- `CsvMetric` from csv.go: the Pool reference and the decoded field
values. -/
structure CsvMetric where
  pp : Pool
  values : List String

/-- The Go string type assertion `str, _ := s.(string)`: the string
payload, or the zero value `""` for any non-string. -/
def goStr : GoValue → String
  | .str s => s
  | _ => ""

/-- `CsvMetric.GetString` from csv.go. -/
def CsvMetric.GetString (c : CsvMetric) (key : String) (nullable : Bool) : GoValue :=
  match c.pp.csvFormat.lookup key with
  | none => if nullable then .nil else .str ""
  | some idx =>
    if c.values.getD idx "" = "null" then (if nullable then .nil else .str "")
    else .str (c.values.getD idx "")

/-- `CsvMetric.GetFloat` from csv.go. -/
def CsvMetric.GetFloat (c : CsvMetric) (key : String) (nullable : Bool) : GoValue :=
  match c.pp.csvFormat.lookup key with
  | none => if nullable then .nil else .float 0
  | some idx =>
    if c.values.getD idx "" = "null" then (if nullable then .nil else .float 0)
    else .float (fastfloat.ParseBestEffort (c.values.getD idx ""))

/-- `CsvMetric.GetBool` from csv.go.  Note the absence condition also
includes the empty cell. -/
def CsvMetric.GetBool (c : CsvMetric) (key : String) (nullable : Bool) : GoValue :=
  match c.pp.csvFormat.lookup key with
  | none => if nullable then .nil else .bool false
  | some idx =>
    if c.values.getD idx "" = "" ∨ c.values.getD idx "" = "null" then
      (if nullable then .nil else .bool false)
    else .bool (c.values.getD idx "" = "true")

/-- `CsvMetric.GetInt` from csv.go. -/
def CsvMetric.GetInt (c : CsvMetric) (key : String) (nullable : Bool) : GoValue :=
  match c.pp.csvFormat.lookup key with
  | none => if nullable then .nil else .int 0
  | some idx =>
    if c.values.getD idx "" = "null" then (if nullable then .nil else .int 0)
    else if c.values.getD idx "" = "true" then .int 1
    else .int (fastfloat.ParseInt64BestEffort (c.values.getD idx ""))

/-- `CsvMetric.GetDateTime` from csv.go: numeric-epoch interpretation
first (full-string `strconv.ParseFloat`), then the per-column
date-format resolver, then the sentinel epoch. -/
def CsvMetric.GetDateTime (c : CsvMetric) (key : String) (nullable : Bool) : GoValue :=
  match c.pp.csvFormat.lookup key with
  | none => if nullable then .nil else .time Epoch
  | some idx =>
    if c.values.getD idx "" = "null" then (if nullable then .nil else .time Epoch)
    else
      match strconv.ParseFloat (c.values.getD idx "") with
      | some dd => .time (UnixFloat dd c.pp.timeUnit)
      | none =>
        match c.pp.ParseDateTime key (c.values.getD idx "") with
        | some t => .time t
        | none => .time Epoch

/-- `CsvMetric.GetElasticDateTime` from csv.go: `GetDateTime` reduced to
Unix seconds; a nil result propagates as nil. -/
def CsvMetric.GetElasticDateTime (c : CsvMetric) (key : String) (nullable : Bool) : GoValue :=
  match c.GetDateTime key nullable with
  | .time t => .int (timeUnix t)
  | _ => .nil

/-- Modelled from the spec: `makeArray` (parser package, not under
src/) — the empty array of the requested element type (§4.4).  For an
element type outside the supported set the spec fixes no value; the
model returns the Go nil interface. -/
def makeArray (typ : Nat) : GoValue :=
  if typ = model.Bool then .boolArr []
  else if typ = model.Int then .intArr []
  else if typ = model.Float then .floatArr []
  else if typ = model.String then .strArr []
  else if typ = model.DateTime then .timeArr []
  else .nil

/-- Per-element coercion of the `model.Bool` branch of `GetArray`. -/
def boolElem (e : GjsonResult) : Bool := e.typ == .jTrue

/-- Per-element coercion of the `model.Int` branch of `GetArray`:
`v := e.Int()`, reset to `0` unless `float64(v) == e.Num`. -/
def intElem (e : GjsonResult) : ℤ :=
  match e.typ with
  | .jTrue => 1
  | .jNumber => if (gjsonInt e : ℚ) ≠ e.num then 0 else gjsonInt e
  | _ => 0

/-- Per-element coercion of the `model.Float` branch of `GetArray`. -/
def floatElem (e : GjsonResult) : ℚ :=
  match e.typ with
  | .jNumber => e.num
  | _ => 0

/-- Per-element coercion of the `model.String` branch of `GetArray`. -/
def strElem (e : GjsonResult) : String :=
  match e.typ with
  | .jNull => ""
  | .jString => e.str
  | _ => e.raw

/-- Per-element coercion of the `model.DateTime` branch of `GetArray`. -/
def timeElem (pp : Pool) (key : String) (e : GjsonResult) : ℚ :=
  match e.typ with
  | .jNumber => UnixFloat e.num pp.timeUnit
  | .jString =>
    match pp.ParseDateTime key e.str with
    | some t => t
    | none => Epoch
  | _ => Epoch

/-- The result of `GetArray`: either a value, or the fatal
(process-halting) `util.Logger.Fatal` branch. -/
inductive ArrResult where
  | fatal (msg : String)
  | ok (v : GoValue)
deriving DecidableEq, Repr

/-- `CsvMetric.GetArray` from csv.go. -/
def CsvMetric.GetArray (c : CsvMetric) (key : String) (typ : Nat) : ArrResult :=
  let str := goStr (c.GetString key false)
  if str = "" ∨ str.toList.headD ' ' ≠ '[' then .ok (makeArray typ)
  else
    let array := gjsonParseArray str
    if array.length = 0 then .ok (makeArray typ)
    else if typ = model.Bool then .ok (.boolArr (array.map boolElem))
    else if typ = model.Int then .ok (.intArr (array.map intElem))
    else if typ = model.Float then .ok (.floatArr (array.map floatElem))
    else if typ = model.String then .ok (.strArr (array.map strElem))
    else if typ = model.DateTime then .ok (.timeArr (array.map (timeElem c.pp key)))
    else .fatal "LOGIC ERROR: unsupported array type"

/-- The row-level errors of the record decoder (spec §7): a decode
(malformed syntax) error, the field-count error raised by the CSV
reader itself, and the redundant schema-mismatch check in `Parse`. -/
inductive ParseErr where
  | decodeErr
  | errFieldCount
  | formatMismatch
deriving DecidableEq, Repr

/-- Strip a trailing carriage return (the `\r` of a `\r\n` record
terminator). -/
def stripCR (l : List Char) : List Char :=
  if l.getLast? = some '\r' then l.dropLast else l

/-- Scan one unquoted CSV field: characters up to the delimiter, the
record terminator or end of input; a bare quote inside the field is
malformed.  Returns (field, rest, record-finished?). -/
def splitUnquoted (delim : Char) (l : List Char) : Option (String × List Char × Bool) :=
  let fld := l.takeWhile (fun c => c != delim && c != '\n' && c != '"')
  let rest := l.drop fld.length
  match rest with
  | [] => some (String.mk fld, [], true)
  | c :: r =>
    if c = delim then some (String.mk fld, r, false)
    else if c = '\n' then some (String.mk (stripCR fld), r, true)
    else none

/-- Scan one quoted CSV field, the opening quote already consumed; `""`
is an escaped quote, and after the closing quote only the delimiter,
the record terminator or end of input may follow.  Returns
(field, rest, record-finished?). -/
def splitQuoted (delim : Char) : Nat → List Char → List Char → Option (String × List Char × Bool)
  | 0, _, _ => none
  | f + 1, acc, l =>
    match l with
    | [] => none
    | '"' :: rest =>
      match rest with
      | '"' :: r2 => splitQuoted delim f ('"' :: acc) r2
      | [] => some (String.mk acc.reverse, [], true)
      | c :: r2 =>
        if c = delim then some (String.mk acc.reverse, r2, false)
        else if c = '\n' then some (String.mk acc.reverse, r2, true)
        else if c = '\r' then
          match r2 with
          | '\n' :: r3 => some (String.mk acc.reverse, r3, true)
          | _ => none
        else none
    | c :: rest => splitQuoted delim f (c :: acc) rest

/-- The fields of one CSV record. -/
def csvFields (delim : Char) : Nat → List Char → Option (List String)
  | 0, _ => none
  | f + 1, l =>
    let step : Option (String × List Char × Bool) :=
      match l with
      | '"' :: rest => splitQuoted delim (rest.length + 1) [] rest
      | _ => splitUnquoted delim l
    match step with
    | none => none
    | some (fld, rest, done) =>
      if done then some [fld]
      else
        match csvFields delim f rest with
        | some flds => some (fld :: flds)
        | none => none

/-- Modelled from the spec: the single-record RFC 4180 split performed
by `encoding/csv` (Go standard library, not under src/): splits exactly
one record at the configured single-byte delimiter, honouring quoting
and escaping, ignoring data after the record terminator; `none` on
malformed quoting or empty (end-of-file) input (§4.1). -/
def csvSplitRecord (delim : Char) (bs : String) : Option (List String) :=
  match bs.toList with
  | [] => none
  | l => csvFields delim (l.length + 1) l

/-- Modelled from the spec: `csv.Reader.Read` with `FieldsPerRecord`
set to the configured count — a positive expected count that the parsed
record does not match is an error of the reader itself. -/
def csvRead (delim : Char) (fieldsPerRecord : Nat) (bs : String) : Except ParseErr (List String) :=
  match csvSplitRecord delim bs with
  | none => .error .decodeErr
  | some fields =>
    if 0 < fieldsPerRecord ∧ fields.length ≠ fieldsPerRecord then .error .errFieldCount
    else .ok fields

/-- `CsvParser` from csv.go. -/
structure CsvParser where
  pp : Pool

/-- The delimiter byte used by `Parse`: the first byte of the
configured delimiter when nonempty, else the comma default. -/
def delimOf (pp : Pool) : Char :=
  if 0 < pp.delimiter.length then pp.delimiter.toList.headD ',' else ','

/-- `CsvParser.Parse` from csv.go: split the record, then require the
field count to equal the configured count, then wrap fields and
configuration into a `CsvMetric`. -/
def CsvParser.Parse (p : CsvParser) (bs : String) : Except ParseErr CsvMetric :=
  match csvRead (delimOf p.pp) p.pp.csvFormat.length bs with
  | .error e => .error e
  | .ok value =>
    if value.length ≠ p.pp.csvFormat.length then .error .formatMismatch
    else .ok ⟨p.pp, value⟩

/-- A one-column test configuration: column `c` at position 0, comma
delimiter, time unit = seconds, no configured date formats. -/
def cPool : Pool :=
  { csvFormat := [("c", 0)], delimiter := ",", timeUnit := 1, ParseDateTime := fun _ _ => none }

/-- A one-column metric over `cPool` holding the given cell. -/
def cMetric (cell : String) : CsvMetric := ⟨cPool, [cell]⟩

/-- A two-column test configuration for the record decoder. -/
def abPool : Pool :=
  { csvFormat := [("a", 0), ("b", 1)], delimiter := ",", timeUnit := 1,
    ParseDateTime := fun _ _ => none }

/-- The shared absence condition of the getters: the column is unknown
to the column index, or the raw cell equals the exact literal string
"null". -/
def csvAbsent (c : CsvMetric) (key : String) : Bool :=
  match c.pp.csvFormat.lookup key with
  | none => true
  | some idx => c.values.getD idx "" == "null"

/-- The cell of a known column is the empty string. -/
def cellEmpty (c : CsvMetric) (key : String) : Bool :=
  match c.pp.csvFormat.lookup key with
  | none => false
  | some idx => c.values.getD idx "" == ""

/-! ## Helper lemmas -/

/-- The longest digit run of `ds ++ rest` is `ds` itself when `ds` is all
digits and `rest` does not start with a digit. -/
theorem leadingDigits_append (ds rest : List Char)
    (h1 : ∀ ch ∈ ds, ch.isDigit = true) (h2 : ∀ ch ∈ rest.take 1, ch.isDigit = false) :
    leadingDigits (ds ++ rest) = ds := by
  unfold leadingDigits
  induction ds with
  | nil =>
    cases rest with
    | nil => rfl
    | cons a t =>
      simp only [List.nil_append]
      exact List.takeWhile_cons_of_neg (by simp [h2 a (by simp)])
  | cons a t ih =>
    rw [List.cons_append, List.takeWhile_cons_of_pos (h1 a (by simp))]
    rw [ih (fun ch hch => h1 ch (by simp [hch]))]

/-- Best-effort integer parsing returns the value of the leading digit
run, ignoring everything after it. -/
theorem parseInt64_digits_append (ds rest : List Char) (hne : ds ≠ [])
    (h1 : ∀ ch ∈ ds, ch.isDigit = true) (h2 : ∀ ch ∈ rest.take 1, ch.isDigit = false) :
    fastfloat.ParseInt64BestEffort (String.mk (ds ++ rest)) = (digitsVal ds : ℤ) := by
  obtain ⟨d, t, rfl⟩ : ∃ d t, ds = d :: t := by
    cases ds with
    | nil => exact absurd rfl hne
    | cons d t => exact ⟨d, t, rfl⟩
  have hd : d.isDigit = true := h1 d (by simp)
  have hdm : ¬d = '-' := by
    intro h
    rw [h] at hd
    exact absurd hd (by decide)
  have hstep : fastfloat.ParseInt64BestEffort (String.mk ((d :: t) ++ rest)) =
      (if d = '-' then
        (if (leadingDigits (t ++ rest)).isEmpty then 0
         else -(digitsVal (leadingDigits (t ++ rest)) : ℤ))
      else
        (if (leadingDigits (d :: (t ++ rest))).isEmpty then 0
         else (digitsVal (leadingDigits (d :: (t ++ rest))) : ℤ))) := rfl
  rw [hstep, if_neg hdm]
  have h3 : leadingDigits (d :: (t ++ rest)) = d :: t := by
    rw [show d :: (t ++ rest) = (d :: t) ++ rest from rfl]
    exact leadingDigits_append _ _ h1 h2
  rw [h3]
  simp

/-- Best-effort integer parsing of a minus sign followed by a digit run
returns the negated value of the run, ignoring everything after it. -/
theorem parseInt64_neg_digits_append (ds rest : List Char) (hne : ds ≠ [])
    (h1 : ∀ ch ∈ ds, ch.isDigit = true) (h2 : ∀ ch ∈ rest.take 1, ch.isDigit = false) :
    fastfloat.ParseInt64BestEffort (String.mk ('-' :: (ds ++ rest))) = -(digitsVal ds : ℤ) := by
  have hstep : fastfloat.ParseInt64BestEffort (String.mk ('-' :: (ds ++ rest))) =
      (if ('-' : Char) = '-' then
        (if (leadingDigits (ds ++ rest)).isEmpty then 0
         else -(digitsVal (leadingDigits (ds ++ rest)) : ℤ))
      else
        (if (leadingDigits ('-' :: (ds ++ rest))).isEmpty then 0
         else (digitsVal (leadingDigits ('-' :: (ds ++ rest))) : ℤ))) := rfl
  rw [hstep, if_pos rfl, leadingDigits_append _ _ h1 h2]
  cases ds with
  | nil => exact absurd rfl hne
  | cons d t => simp

/-- Best-effort integer parsing returns `0` when the input starts with
neither a digit nor a minus sign. -/
theorem parseInt64_no_digits (s : String) (h1 : s.toList.takeWhile Char.isDigit = [])
    (h2 : ∀ ch ∈ s.toList.take 1, ch ≠ '-') :
    fastfloat.ParseInt64BestEffort s = 0 := by
  unfold fastfloat.ParseInt64BestEffort
  cases hl : s.toList with
  | nil => rfl
  | cons c r =>
    rw [hl] at h1 h2
    simp only []
    rw [if_neg (h2 c (by simp))]
    unfold leadingDigits
    rw [h1]
    rfl

/-- Best-effort integer parsing returns `0` when a minus sign is not
followed by a digit. -/
theorem parseInt64_minus_no_digits (r : List Char) (h1 : r.takeWhile Char.isDigit = []) :
    fastfloat.ParseInt64BestEffort (String.mk ('-' :: r)) = 0 := by
  have hstep : fastfloat.ParseInt64BestEffort (String.mk ('-' :: r)) =
      (if ('-' : Char) = '-' then
        (if (leadingDigits r).isEmpty then 0 else -(digitsVal (leadingDigits r) : ℤ))
      else
        (if (leadingDigits ('-' :: r)).isEmpty then 0
         else (digitsVal (leadingDigits ('-' :: r)) : ℤ))) := rfl
  rw [hstep, if_pos rfl]
  unfold leadingDigits
  rw [h1]
  rfl

/-! ## Claims -/

/-- Claim C1: for every known column whose cell is not the literal
"null", GetInt returns 1 when the cell equals "true", and otherwise the
integer parsed from the longest valid leading integer prefix of the
cell, ignoring any trailing garbage, and 0 only when no such prefix
exists; in particular GetInt on cell "42.9" returns 42, on "abc"
returns 0, and on "null" with nullable = false returns 0. -/
theorem C1_getInt_longest_lead (c : CsvMetric) (key : String) (nullable : Bool) (idx : Nat)
    (hk : c.pp.csvFormat.lookup key = some idx)
    (hnn : c.values.getD idx "" ≠ "null") :
    (c.GetInt key nullable =
      .int (if c.values.getD idx "" = "true" then 1
            else fastfloat.ParseInt64BestEffort (c.values.getD idx ""))) ∧
    (∀ ds rest, ds ≠ [] → (∀ ch ∈ ds, ch.isDigit = true) →
      (∀ ch ∈ rest.take 1, ch.isDigit = false) →
      fastfloat.ParseInt64BestEffort (String.mk (ds ++ rest)) = (digitsVal ds : ℤ) ∧
      fastfloat.ParseInt64BestEffort (String.mk ('-' :: (ds ++ rest))) = -(digitsVal ds : ℤ)) ∧
    (∀ s : String, s.toList.takeWhile Char.isDigit = [] →
      (∀ ch ∈ s.toList.take 1, ch ≠ '-') → fastfloat.ParseInt64BestEffort s = 0) ∧
    (∀ r : List Char, r.takeWhile Char.isDigit = [] →
      fastfloat.ParseInt64BestEffort (String.mk ('-' :: r)) = 0) ∧
    (cMetric "42.9").GetInt "c" false = .int 42 ∧
    (cMetric "abc").GetInt "c" false = .int 0 ∧
    (cMetric "null").GetInt "c" false = .int 0 := by
  refine ⟨?_, ?_, ?_, ?_, by decide, by decide, by decide⟩
  · unfold CsvMetric.GetInt
    rw [hk]
    simp only [if_neg hnn]
    split <;> rfl
  · intro ds rest hne h1 h2
    exact ⟨parseInt64_digits_append ds rest hne h1 h2,
           parseInt64_neg_digits_append ds rest hne h1 h2⟩
  · intro s h1 h2
    exact parseInt64_no_digits s h1 h2
  · intro r h1
    exact parseInt64_minus_no_digits r h1

/-- Witness for C1 at the concrete cell "42.9". -/
theorem C1_witness : (cMetric "42.9").GetInt "c" false = GoValue.int 42 :=
  (C1_getInt_longest_lead (cMetric "42.9") "c" false 0 (by decide) (by decide)).2.2.2.2.1

/-- A leading character that is neither a sign yields no sign split. -/
theorem signSplit_not_sign (c : Char) (r : List Char) (h1 : c ≠ '-') (h2 : c ≠ '+') :
    signSplit (c :: r) = (false, c :: r) := by
  simp only [signSplit]
  rw [if_neg h1, if_neg h2]

/-- The exponent clause does not fire when the input does not start
with `e` or `E`. -/
theorem applyExpo_not_e (mant : ℚ) (l : List Char)
    (h : ∀ ch ∈ l.take 1, ch ≠ 'e' ∧ ch ≠ 'E') : applyExpo mant l = (mant, l) := by
  cases l with
  | nil => rfl
  | cons c r =>
    have hc := h c (by simp)
    simp only [applyExpo]
    rw [if_neg (not_or.mpr ⟨hc.1, hc.2⟩)]

/-- Best-effort float parsing of a decimal literal followed by trailing
garbage that cannot extend the literal consumes exactly the literal and
returns its exact value, leaving the garbage unread. -/
theorem parseFloatLead_decimal (ip fp rest : List Char)
    (hip : ip ≠ []) (h1 : ∀ ch ∈ ip, ch.isDigit = true)
    (h2 : ∀ ch ∈ fp, ch.isDigit = true)
    (h3 : ∀ ch ∈ rest.take 1, ch.isDigit = false ∧ ch ≠ '.' ∧ ch ≠ 'e' ∧ ch ≠ 'E') :
    parseFloatLead (ip ++ '.' :: (fp ++ rest)) =
      some ((digitsVal ip : ℚ) + (digitsVal fp : ℚ) / (10 : ℚ) ^ fp.length, rest) := by
  obtain ⟨d, t, rfl⟩ : ∃ d t, ip = d :: t := by
    cases ip with
    | nil => exact absurd rfl hip
    | cons d t => exact ⟨d, t, rfl⟩
  have hd : d.isDigit = true := h1 d (by simp)
  have hsign : signSplit ((d :: t) ++ '.' :: (fp ++ rest)) = (false, (d :: t) ++ '.' :: (fp ++ rest)) := by
    rw [List.cons_append]
    refine signSplit_not_sign d _ ?_ ?_ <;>
      (intro h; rw [h] at hd; exact absurd hd (by decide))
  have hds : leadingDigits ((d :: t) ++ '.' :: (fp ++ rest)) = d :: t := by
    refine leadingDigits_append _ _ h1 ?_
    intro ch hch
    simp at hch
    rw [hch]
    decide
  have hfs : leadingDigits (fp ++ rest) = fp := by
    refine leadingDigits_append _ _ h2 ?_
    intro ch hch
    exact (h3 ch hch).1
  unfold parseFloatLead
  rw [hsign]
  simp only [hds, List.isEmpty_cons, List.drop_left]
  rw [if_neg (by simp)]
  unfold fracExpo
  simp only [hfs, List.drop_left]
  rw [applyExpo_not_e _ _ (fun ch hch => ⟨((h3 ch hch).2).2.1, ((h3 ch hch).2).2.2⟩)]
  simp

/-- Claim C2: for every known column whose cell is not the literal
"null", GetFloat returns the floating-point number parsed from the
longest valid leading floating-point prefix of the cell, ignoring
trailing garbage, and 0.0 only when no such prefix exists; in
particular GetFloat on cell "3.14xyz" returns 3.14. -/
theorem C2_getFloat_longest_lead (c : CsvMetric) (key : String) (nullable : Bool) (idx : Nat)
    (hk : c.pp.csvFormat.lookup key = some idx)
    (hnn : c.values.getD idx "" ≠ "null") :
    (c.GetFloat key nullable = .float (fastfloat.ParseBestEffort (c.values.getD idx ""))) ∧
    (∀ ip fp rest, ip ≠ [] → (∀ ch ∈ ip, ch.isDigit = true) →
      (∀ ch ∈ fp, ch.isDigit = true) →
      (∀ ch ∈ rest.take 1, ch.isDigit = false ∧ ch ≠ '.' ∧ ch ≠ 'e' ∧ ch ≠ 'E') →
      fastfloat.ParseBestEffort (String.mk (ip ++ '.' :: (fp ++ rest))) =
        (digitsVal ip : ℚ) + (digitsVal fp : ℚ) / (10 : ℚ) ^ fp.length) ∧
    (∀ s : String, parseFloatLead s.toList = none → fastfloat.ParseBestEffort s = 0) ∧
    (cMetric "3.14xyz").GetFloat "c" false = .float 3.14 ∧
    (cMetric "abc").GetFloat "c" false = .float 0 := by
  refine ⟨?_, ?_, ?_, by with_unfolding_all decide, by with_unfolding_all decide⟩
  · unfold CsvMetric.GetFloat
    rw [hk]
    simp only [if_neg hnn]
  · intro ip fp rest hip h1 h2 h3
    unfold fastfloat.ParseBestEffort
    rw [show (String.mk (ip ++ '.' :: (fp ++ rest))).toList = ip ++ '.' :: (fp ++ rest) from rfl]
    rw [parseFloatLead_decimal ip fp rest hip h1 h2 h3]
  · intro s h
    unfold fastfloat.ParseBestEffort
    rw [h]

/-- Witness for C2 at the concrete cell "3.14xyz". -/
theorem C2_witness : (cMetric "3.14xyz").GetFloat "c" false = GoValue.float 3.14 :=
  (C2_getFloat_longest_lead (cMetric "3.14xyz") "c" false 0 (by decide) (by decide)).2.2.2.1

/-- GetDateTime on a known column with a non-"null" cell always
produces an instant. -/
theorem getDateTime_not_nil (c : CsvMetric) (key : String) (nullable : Bool) (idx : Nat)
    (hk : c.pp.csvFormat.lookup key = some idx)
    (hnn : c.values.getD idx "" ≠ "null") :
    ∃ t, c.GetDateTime key nullable = .time t := by
  unfold CsvMetric.GetDateTime
  rw [hk]
  simp only [if_neg hnn]
  cases strconv.ParseFloat (c.values.getD idx "") with
  | some dd => exact ⟨_, rfl⟩
  | none =>
    cases c.pp.ParseDateTime key (c.values.getD idx "") with
    | some t => exact ⟨t, rfl⟩
    | none => exact ⟨Epoch, rfl⟩

/-- Counterexample to claim C3 as stated: column "c" is known and its
cell "" is not the literal "null", yet GetBool with nullable = true
returns the null marker — the empty cell does trigger the absence rule
for GetBool, while the claimed coercion would give the boolean false. -/
theorem C3_counterexample :
    (cMetric "").pp.csvFormat.lookup "c" = some 0 ∧
    (cMetric "").values.getD 0 "" ≠ "null" ∧
    (cMetric "").GetBool "c" true = GoValue.nil ∧
    GoValue.nil ≠ GoValue.bool false := by decide

/-- Claim C3 (amended): for GetString, GetInt, GetFloat and
GetDateTime, a column is treated as absent exactly when the name is
unknown to the column index or the raw cell equals the literal "null";
GetBool additionally treats the empty cell as absent.  When absent, the
getter returns the null marker if nullable is true and the type's zero
value if nullable is false. -/
theorem C3_absence_rule (c : CsvMetric) (key : String) :
    ((c.GetString key true = .nil) ↔ csvAbsent c key = true) ∧
    ((c.GetInt key true = .nil) ↔ csvAbsent c key = true) ∧
    ((c.GetFloat key true = .nil) ↔ csvAbsent c key = true) ∧
    ((c.GetDateTime key true = .nil) ↔ csvAbsent c key = true) ∧
    ((c.GetBool key true = .nil) ↔ (csvAbsent c key = true ∨ cellEmpty c key = true)) ∧
    (csvAbsent c key = true →
      c.GetString key false = .str "" ∧ c.GetInt key false = .int 0 ∧
      c.GetFloat key false = .float 0 ∧ c.GetDateTime key false = .time Epoch ∧
      c.GetBool key false = .bool false) := by
  cases hk : c.pp.csvFormat.lookup key with
  | none =>
    refine ⟨?_, ?_, ?_, ?_, ?_, ?_⟩ <;>
      simp [CsvMetric.GetString, CsvMetric.GetInt, CsvMetric.GetFloat, CsvMetric.GetDateTime,
        CsvMetric.GetBool, csvAbsent, cellEmpty, hk]
  | some idx =>
    by_cases hnull : c.values[idx]?.getD "" = "null"
    · refine ⟨?_, ?_, ?_, ?_, ?_, ?_⟩ <;>
        simp [CsvMetric.GetString, CsvMetric.GetInt, CsvMetric.GetFloat, CsvMetric.GetDateTime,
          CsvMetric.GetBool, csvAbsent, cellEmpty, hk, hnull]
    · have hnn : c.values.getD idx "" ≠ "null" := by simpa using hnull
      obtain ⟨t, ht⟩ := getDateTime_not_nil c key true idx hk hnn
      have habs : csvAbsent c key = false := by simp [csvAbsent, hk, hnull]
      refine ⟨?_, ?_, ?_, ?_, ?_, ?_⟩
      · simp [CsvMetric.GetString, hk, hnull, habs]
      · simp [CsvMetric.GetInt, hk, hnull, habs]
        split <;> simp
      · simp [CsvMetric.GetFloat, hk, hnull, habs]
      · rw [ht]
        simp [habs]
      · simp only [CsvMetric.GetBool, hk, csvAbsent, cellEmpty]
        by_cases hemp : c.values[idx]?.getD "" = "" <;>
          simp [hemp, hnull]
      · intro habs'
        rw [habs] at habs'
        exact absurd habs' (by decide)

/-- Witness for C3 (amended) at the concrete cell "null". -/
theorem C3_witness :
    (cMetric "null").GetString "c" false = GoValue.str "" ∧
    (cMetric "null").GetInt "c" false = GoValue.int 0 ∧
    (cMetric "null").GetFloat "c" false = GoValue.float 0 ∧
    (cMetric "null").GetDateTime "c" false = GoValue.time Epoch ∧
    (cMetric "null").GetBool "c" false = GoValue.bool false :=
  (C3_absence_rule (cMetric "null") "c").2.2.2.2.2 (by decide)

/-- Claim C10: GetBool treats the empty-string cell as absent, unlike
every other getter: for a known column with an empty cell it returns
the null marker when nullable is true and false when nullable is false,
while GetString, GetInt, GetFloat and GetDateTime still produce
non-null values there. -/
theorem C10_getBool_empty_absent (c : CsvMetric) (key : String) (idx : Nat)
    (hk : c.pp.csvFormat.lookup key = some idx)
    (hcell : c.values.getD idx "" = "") :
    c.GetBool key true = .nil ∧
    c.GetBool key false = .bool false ∧
    c.GetString key true = .str "" ∧
    c.GetInt key true = .int 0 ∧
    c.GetFloat key true = .float 0 ∧
    (∃ t, c.GetDateTime key true = .time t) := by
  have hcell2 : c.values[idx]?.getD "" = "" := by simpa using hcell
  have hnn : c.values.getD idx "" ≠ "null" := by rw [hcell]; decide
  refine ⟨?_, ?_, ?_, ?_, ?_, getDateTime_not_nil c key true idx hk hnn⟩
  · simp [CsvMetric.GetBool, hk, hcell2]
  · simp [CsvMetric.GetBool, hk, hcell2]
  · simp [CsvMetric.GetString, hk, hcell2]
  · simp only [CsvMetric.GetInt, hk]
    rw [hcell]
    decide
  · simp only [CsvMetric.GetFloat, hk]
    rw [hcell]
    with_unfolding_all decide

/-- Witness for C10 at the concrete empty cell. -/
theorem C10_witness :
    (cMetric "").GetBool "c" true = GoValue.nil ∧
    (cMetric "").GetBool "c" false = GoValue.bool false :=
  ⟨(C10_getBool_empty_absent (cMetric "") "c" 0 (by decide) (by decide)).1,
   (C10_getBool_empty_absent (cMetric "") "c" 0 (by decide) (by decide)).2.1⟩

/-- Claim C4: Parse errors whenever the number of parsed fields differs
from the configured count, and a successfully constructed metric always
carries exactly the configured number of fields. -/
theorem C4_parse_field_count (p : CsvParser) (bs : String) :
    (∀ m, p.Parse bs = .ok m → m.values.length = p.pp.csvFormat.length) ∧
    (∀ fields, csvSplitRecord (delimOf p.pp) bs = some fields →
      fields.length ≠ p.pp.csvFormat.length → ∃ e, p.Parse bs = .error e) := by
  constructor
  · intro m hm
    unfold CsvParser.Parse at hm
    cases hr : csvRead (delimOf p.pp) p.pp.csvFormat.length bs with
    | error e => simp [hr] at hm
    | ok value =>
      rw [hr] at hm
      simp only [] at hm
      split at hm
      · exact absurd hm (by simp)
      · rename_i hc
        cases hm
        simpa using not_ne_iff.mp hc
  · intro fields hf hlen
    by_cases hn : 0 < p.pp.csvFormat.length
    · refine ⟨.errFieldCount, ?_⟩
      unfold CsvParser.Parse csvRead
      rw [hf]
      simp [hn, hlen]
    · refine ⟨.formatMismatch, ?_⟩
      unfold CsvParser.Parse csvRead
      rw [hf]
      simp [hn, hlen]

/-- Witness for C4: a three-field record against a two-column schema is
rejected. -/
theorem C4_witness : ∃ e, (CsvParser.mk abPool).Parse "x,y,z" = Except.error e :=
  (C4_parse_field_count (CsvParser.mk abPool) "x,y,z").2 ["x", "y", "z"]
    (by decide) (by decide)

/-- Claim C5: GetDateTime on a known, non-"null" cell first attempts a
full-string numeric parse; on success it returns the Unix instant
scaled by the configured time unit without ever consulting the
date-format resolver (the result is the same under every resolver), and
on failure it delegates to the resolver, degrading to the sentinel
epoch — never an error. -/
theorem C5_getDateTime_numeric_first (c : CsvMetric) (key : String) (nullable : Bool) (idx : Nat)
    (hk : c.pp.csvFormat.lookup key = some idx)
    (hnn : c.values.getD idx "" ≠ "null") :
    (∀ dd, strconv.ParseFloat (c.values.getD idx "") = some dd →
      ∀ pd : String → String → Option ℚ,
        (CsvMetric.mk { c.pp with ParseDateTime := pd } c.values).GetDateTime key nullable =
          .time (UnixFloat dd c.pp.timeUnit)) ∧
    (strconv.ParseFloat (c.values.getD idx "") = none →
      c.GetDateTime key nullable =
        .time ((c.pp.ParseDateTime key (c.values.getD idx "")).getD Epoch)) := by
  constructor
  · intro dd hdd pd
    unfold CsvMetric.GetDateTime
    rw [show (CsvMetric.mk { c.pp with ParseDateTime := pd } c.values).pp.csvFormat =
        c.pp.csvFormat from rfl]
    rw [show (CsvMetric.mk { c.pp with ParseDateTime := pd } c.values).values = c.values from rfl]
    rw [hk]
    simp only [if_neg hnn]
    rw [hdd]
  · intro h
    unfold CsvMetric.GetDateTime
    rw [hk]
    simp only [if_neg hnn]
    rw [h]
    cases hpd : c.pp.ParseDateTime key (c.values.getD idx "") with
    | some t => simp [hpd]
    | none => simp [hpd]

/-- Witness for C5 at the concrete numeric cell "3" with time unit 1. -/
theorem C5_witness : (cMetric "3").GetDateTime "c" false = GoValue.time 3 := by
  have h := (C5_getDateTime_numeric_first (cMetric "3") "c" false 0 (by decide)
    (by decide)).1 3 (by with_unfolding_all decide) (fun _ _ => none)
  have h2 : UnixFloat 3 (cMetric "3").pp.timeUnit = 3 := by with_unfolding_all decide
  rw [h2] at h
  exact h

/-- Claim C6: on a cell holding a non-empty JSON array, GetArray with
element type Int64 maps boolean true to 1, a number to its truncated
integer value exactly when that integer equals the original numeric
value (else 0), and every other element type to 0; on "[1,2.5,true]"
the result is [1, 0, 1]. -/
theorem C6_getArray_int (c : CsvMetric) (key : String) (es : List GjsonResult)
    (hstr : goStr (c.GetString key false) ≠ "")
    (hhead : (goStr (c.GetString key false)).toList.headD ' ' = '[')
    (hes : gjsonParseArray (goStr (c.GetString key false)) = es)
    (hne : es ≠ []) :
    c.GetArray key model.Int = .ok (.intArr (es.map intElem)) ∧
    (∀ e ∈ es,
      (e.typ = .jTrue → intElem e = 1) ∧
      (e.typ = .jNumber →
        intElem e = if (gjsonInt e : ℚ) = e.num then gjsonInt e else 0) ∧
      (e.typ ≠ .jTrue → e.typ ≠ .jNumber → intElem e = 0)) ∧
    (cMetric "[1,2.5,true]").GetArray "c" model.Int = .ok (.intArr [1, 0, 1]) := by
  refine ⟨?_, ?_, by with_unfolding_all decide⟩
  · simp only [CsvMetric.GetArray]
    rw [if_neg (not_or.mpr ⟨hstr, not_not.mpr hhead⟩)]
    rw [hes]
    rw [if_neg (by simpa using hne)]
    rw [if_neg (by decide)]
    simp
  · intro e _
    refine ⟨?_, ?_, ?_⟩
    · intro h
      simp [intElem, h]
    · intro h
      simp only [intElem, h]
      by_cases hq : (gjsonInt e : ℚ) = e.num <;> simp [hq]
    · intro h1 h2
      cases he : e.typ
      case jTrue => exact absurd he h1
      case jNumber => exact absurd he h2
      all_goals simp [intElem, he]

/-- Witness for C6 at the concrete cell "[1,2.5,true]". -/
theorem C6_witness :
    (cMetric "[1,2.5,true]").GetArray "c" model.Int = ArrResult.ok (GoValue.intArr [1, 0, 1]) :=
  (C6_getArray_int (cMetric "[1,2.5,true]") "c"
    [⟨.jNumber, 1, "", "1"⟩, ⟨.jNumber, 5 / 2, "", "2.5"⟩, ⟨.jTrue, 0, "", "true"⟩]
    (by with_unfolding_all decide) (by with_unfolding_all decide)
    (by with_unfolding_all decide) (by decide)).2.2

/-- Claim C7: for every supported element type, GetArray degrades to the
empty array of the requested element type whenever the cell (read via
GetString with nullable = false) is empty, does not start with a
bracket, or parses to a zero-element JSON array; the result is never
the null marker. -/
theorem C7_empty_array (c : CsvMetric) (key : String) (typ : Nat)
    (htyp : typ = model.Bool ∨ typ = model.Int ∨ typ = model.Float ∨ typ = model.String ∨
      typ = model.DateTime)
    (hempty : goStr (c.GetString key false) = "" ∨
      (goStr (c.GetString key false)).toList.headD ' ' ≠ '[' ∨
      gjsonParseArray (goStr (c.GetString key false)) = []) :
    c.GetArray key typ = .ok (makeArray typ) ∧
    makeArray typ ≠ .nil ∧
    (typ = model.Bool → makeArray typ = .boolArr []) ∧
    (typ = model.Int → makeArray typ = .intArr []) ∧
    (typ = model.Float → makeArray typ = .floatArr []) ∧
    (typ = model.String → makeArray typ = .strArr []) ∧
    (typ = model.DateTime → makeArray typ = .timeArr []) := by
  refine ⟨?_, ?_, ?_, ?_, ?_, ?_, ?_⟩
  · simp only [CsvMetric.GetArray]
    by_cases h1 : goStr (c.GetString key false) = "" ∨
        (goStr (c.GetString key false)).toList.headD ' ' ≠ '['
    · rw [if_pos h1]
    · rw [if_neg h1]
      have harr : gjsonParseArray (goStr (c.GetString key false)) = [] := by
        rcases hempty with h | h | h
        · exact absurd (Or.inl h) h1
        · exact absurd (Or.inr h) h1
        · exact h
      rw [harr]
      simp
  · rcases htyp with h | h | h | h | h <;> (rw [h]; decide)
  · intro h
    rw [h]
    decide
  · intro h
    rw [h]
    decide
  · intro h
    rw [h]
    decide
  · intro h
    rw [h]
    decide
  · intro h
    rw [h]
    decide

/-- Witness for C7 at a concrete non-bracket cell. -/
theorem C7_witness :
    (cMetric "xyz").GetArray "c" model.DateTime = ArrResult.ok (GoValue.timeArr []) := by
  have h := (C7_empty_array (cMetric "xyz") "c" model.DateTime (by decide)
    (Or.inr (Or.inl (by decide))))
  rw [h.1, h.2.2.2.2.2.2 rfl]

/-- Claim C8: GetElasticDateTime is exactly GetDateTime reduced to
integer seconds since the Unix epoch; a nil GetDateTime result (absent
column with nullable = true) propagates as nil, never a numeric
default, and the sentinel epoch reduces to 0 seconds. -/
theorem C8_elastic_seconds (c : CsvMetric) (key : String) (nullable : Bool) :
    (c.GetDateTime key nullable = .nil → c.GetElasticDateTime key nullable = .nil) ∧
    (∀ t, c.GetDateTime key nullable = .time t →
      c.GetElasticDateTime key nullable = .int (timeUnix t)) ∧
    (c.GetDateTime key nullable = .time Epoch →
      c.GetElasticDateTime key nullable = .int 0) ∧
    (c.pp.csvFormat.lookup key = none → nullable = true →
      c.GetElasticDateTime key nullable = .nil) := by
  refine ⟨?_, ?_, ?_, ?_⟩
  · intro h
    unfold CsvMetric.GetElasticDateTime
    rw [h]
  · intro t h
    unfold CsvMetric.GetElasticDateTime
    rw [h]
  · intro h
    unfold CsvMetric.GetElasticDateTime
    rw [h]
    with_unfolding_all decide
  · intro hk hnul
    unfold CsvMetric.GetElasticDateTime CsvMetric.GetDateTime
    rw [hk, hnul]
    rfl

/-- Witness for C8 on an unknown column with nullable = true. -/
theorem C8_witness : (cMetric "x").GetElasticDateTime "z" true = GoValue.nil :=
  (C8_elastic_seconds (cMetric "x") "z" true).2.2.2 (by decide) rfl

/-- Claim C9: GetArray reaches the fatal process-halting branch exactly
when the requested element type lies outside the supported set and the
cell holds a non-empty JSON array; for supported element types every
path returns a value. -/
theorem C9_fatal_iff (c : CsvMetric) (key : String) (typ : Nat) :
    (∃ msg, c.GetArray key typ = .fatal msg) ↔
      ((typ ≠ model.Bool ∧ typ ≠ model.Int ∧ typ ≠ model.Float ∧ typ ≠ model.String ∧
        typ ≠ model.DateTime) ∧
       goStr (c.GetString key false) ≠ "" ∧
       (goStr (c.GetString key false)).toList.headD ' ' = '[' ∧
       gjsonParseArray (goStr (c.GetString key false)) ≠ []) := by
  simp only [CsvMetric.GetArray]
  by_cases h1 : goStr (c.GetString key false) = "" ∨
      (goStr (c.GetString key false)).toList.headD ' ' ≠ '['
  · rw [if_pos h1]
    constructor
    · rintro ⟨msg, hmsg⟩
      exact absurd hmsg (by simp)
    · rintro ⟨-, h2, h3, -⟩
      exact absurd (h1.resolve_left h2) (not_not.mpr h3)
  · rw [if_neg h1]
    push_neg at h1
    by_cases h2 : (gjsonParseArray (goStr (c.GetString key false))).length = 0
    · rw [if_pos h2]
      constructor
      · rintro ⟨msg, hmsg⟩
        exact absurd hmsg (by simp)
      · rintro ⟨-, -, -, h4⟩
        exact absurd (List.length_eq_zero.mp h2) h4
    · rw [if_neg h2]
      by_cases hb : typ = model.Bool
      · rw [if_pos hb]
        constructor
        · rintro ⟨msg, hmsg⟩
          exact absurd hmsg (by simp)
        · rintro ⟨⟨hB, -, -, -, -⟩, -⟩
          exact absurd hb hB
      · rw [if_neg hb]
        by_cases hi : typ = model.Int
        · rw [if_pos hi]
          constructor
          · rintro ⟨msg, hmsg⟩
            exact absurd hmsg (by simp)
          · rintro ⟨⟨-, hI, -, -, -⟩, -⟩
            exact absurd hi hI
        · rw [if_neg hi]
          by_cases hf : typ = model.Float
          · rw [if_pos hf]
            constructor
            · rintro ⟨msg, hmsg⟩
              exact absurd hmsg (by simp)
            · rintro ⟨⟨-, -, hF, -, -⟩, -⟩
              exact absurd hf hF
          · rw [if_neg hf]
            by_cases hs : typ = model.String
            · rw [if_pos hs]
              constructor
              · rintro ⟨msg, hmsg⟩
                exact absurd hmsg (by simp)
              · rintro ⟨⟨-, -, -, hS, -⟩, -⟩
                exact absurd hs hS
            · rw [if_neg hs]
              by_cases hd : typ = model.DateTime
              · rw [if_pos hd]
                constructor
                · rintro ⟨msg, hmsg⟩
                  exact absurd hmsg (by simp)
                · rintro ⟨⟨-, -, -, -, hD⟩, -⟩
                  exact absurd hd hD
              · rw [if_neg hd]
                constructor
                · intro _
                  refine ⟨⟨hb, hi, hf, hs, hd⟩, h1.1, h1.2, ?_⟩
                  intro hnil
                  exact h2 (by rw [hnil]; rfl)
                · intro _
                  exact ⟨_, rfl⟩

end CSink
